import Mathlib

/-!
Verification development for the arxiv-feed core: a shallow embedding of
`feed/domain.py`, `feed/database.py` and `feed/serializers/extensions.py`,
together with a spec-modelled embedding of the request validator
(`feed/fetch_data.py`, whose source is known here only through its
specification and tests).  Python objects become Lean structures, the
lxml element tree becomes an inductive tree, and the stateful feedgen
extension classes become explicit state records with functional updates.
-/

/-! ## Domain model (`feed/domain.py`) -/

/-- Modelled from the spec: the `Format` enumeration of `feed/consts.py`
(not under `src/`): "enumerated {PDF, PS, HTML, OTHER...}; derived from
metadata flags/fields, not free text".  `formatStr` is its string
rendering used by the `application/<format>` MIME derivation. -/
inductive Format where
  | pdf
  | ps
  | html
  | other
deriving DecidableEq, Repr

def formatStr : Format → String
  | Format.pdf => "pdf"
  | Format.ps => "ps"
  | Format.html => "html"
  | Format.other => "other"

/-- Embeds `Author` of `feed/domain.py`. -/
structure Author where
  last_name : String
  full_name : String
  initials : String
  affiliations : List String
deriving DecidableEq, Repr

/-- Embeds `Category` of `feed/domain.py`. -/
structure Category where
  id : String
  name : String
deriving DecidableEq, Repr

/-- Embeds `Media` of `feed/domain.py` (the three stored fields). -/
structure Media where
  title : String
  url : String
  format : Format
deriving DecidableEq, Repr

/-- Embeds the derived property `Media.type`:
`if self.format in {Format.PDF, Format.PS}: return f"application/{self.format}"`
else `return "text/html"`. -/
def Media.type (m : Media) : String :=
  if m.format = Format.pdf ∨ m.format = Format.ps then
    "application/" ++ formatStr m.format
  else
    "text/html"

/-! ## Database query (`feed/database.py`) -/

/-- Embeds the columns of `ArXivUpdate` that `get_announce_papers` reads. -/
structure ArXivUpdate where
  document_id : Nat
  category : String
  archive : String
  action : String
  version : Int
  date : Int
deriving DecidableEq, Repr

/-- Embeds the columns of `ArXivMetadata` that `get_announce_papers` reads. -/
structure ArXivMetadata where
  document_id : Nat
  is_current : Nat
deriving DecidableEq, Repr

/-- Embeds the WHERE clause of the query in `get_announce_papers`:
`or_(category.in_(categories), archive.in_(archives))` and
`and_(or_(action != "replace", and_(action == "replace", version <= 4)),
action != "abs_only", date >= first_day, date <= last_day,
metadata.is_current == 1)`. -/
def rowCond (first_day last_day : Int) (archives categories : List String)
    (u : ArXivUpdate) (m : ArXivMetadata) : Bool :=
  decide ((u.category ∈ categories ∨ u.archive ∈ archives) ∧
    ((u.action ≠ "replace" ∨ (u.action = "replace" ∧ u.version ≤ 4)) ∧
      u.action ≠ "abs_only" ∧
      first_day ≤ u.date ∧ u.date ≤ last_day ∧
      m.is_current = 1))

/-- Embeds `get_announce_papers` of `feed/database.py` over an explicit
table state: the inner join on `document_id`, the WHERE filter of
`rowCond`, and `.limit(result_limit)` with `result_limit = 15`. -/
def get_announce_papers (first_day last_day : Int)
    (archives categories : List String)
    (updates : List ArXivUpdate) (metadata : List ArXivMetadata) :
    List (ArXivUpdate × ArXivMetadata) :=
  (((updates.flatMap fun u =>
      metadata.filterMap fun m =>
        if u.document_id = m.document_id then some (u, m) else none).filter
    fun p => rowCond first_day last_day archives categories p.1 p.2).take 15)

/-! ## Element trees (lxml `etree.Element`, as the extensions use them) -/

/-- Embeds the fragment of an lxml element the extensions touch: tag,
attributes, text content and the ordered list of child elements. -/
inductive Elem where
  | mk (tag : String) (attrib : List (String × String))
      (text : Option String) (children : List Elem)

def Elem.tag : Elem → String
  | .mk t _ _ _ => t

def Elem.attrib : Elem → List (String × String)
  | .mk _ a _ _ => a

def Elem.text : Elem → Option String
  | .mk _ _ t _ => t

def Elem.children : Elem → List Elem
  | .mk _ _ _ c => c

/-- Replaces an element's text, as in `entry_child.text = description`. -/
def Elem.setText : Elem → Option String → Elem
  | .mk tg a _ c, t => .mk tg a t c

/-- Replaces an element's child list. -/
def Elem.setChildren : Elem → List Elem → Elem
  | .mk tg a t _, c => .mk tg a t c

/-- Embeds `etree.SubElement(parent, ...)`: appends one new child at the
end of the parent's child list. -/
def pushChild (parent : Elem) (child : Elem) : Elem :=
  parent.setChildren (parent.children ++ [child])

/-- Clark notation `{namespace}tag` used by lxml for namespaced tags. -/
def clark (ns tag : String) : String := "\x7b" ++ ns ++ "\x7d" ++ tag

def atomNs : String := "http://arxiv.org/schemas/atom"

def mediaNs : String := "http://search.yahoo.com/mrss"

/-! ## Feed-level extension (`ArxivExtension`) -/

/-- Embeds `ArxivExtension.extend_atom`: `return atom_feed`. -/
def ArxivExtension.extend_atom (atom_feed : Elem) : Elem := atom_feed

/-- Embeds `ArxivExtension.extend_rss`: `return rss_feed`. -/
def ArxivExtension.extend_rss (rss_feed : Elem) : Elem := rss_feed

/-- Embeds `ArxivExtension.extend_ns`: the feed-level namespace map. -/
def ArxivExtension.extend_ns : List (String × String) :=
  [("arxiv", "http://arxiv.org/schemas/atom"),
   ("content", "http://purl.org/rss/1.0/modules/content/"),
   ("taxo", "http://purl.org/rss/1.0/modules/taxonomy/"),
   ("syn", "http://purl.org/rss/1.0/modules/syndication/"),
   ("admin", "http://webns.net/mvcb/"),
   ("media", "http://search.yahoo.com/mrss")]

/-! ## Entry-level extension state (`ArxivEntryExtension.__init__`) -/

/-- Embeds the private accumulator fields set in
`ArxivEntryExtension.__init__`.  `__arxiv_primary_category` and
`__arxiv_doi` are used by `extend_atom` as an attribute mapping and as a
mapping iterated by key, so they are embedded as association lists;
`__arxiv_affiliation` is initialized but never read or written again. -/
structure EntryState where
  authors : List Author
  media : List Media
  comment : Option String
  primary_category : Option (List (String × String))
  doi : Option (List (String × String))
  affiliation_unused : Option String
  journal_ref : Option String
  affiliations : List (String × List String)
deriving Repr

/-- The fresh state built by `__init__`: everything empty. -/
def EntryState.init : EntryState :=
  { authors := [], media := [], comment := none, primary_category := none,
    doi := none, affiliation_unused := none, journal_ref := none,
    affiliations := [] }

/-! ## Setters of `ArxivEntryExtension` -/

/-- Embeds `author`: `self.__arxiv_authors.append(author)`. -/
def EntryState.author (st : EntryState) (a : Author) : EntryState :=
  { st with authors := st.authors ++ [a] }

/-- Embeds `media`: `self.__arxiv_media.append(media)`. -/
def EntryState.media_add (st : EntryState) (m : Media) : EntryState :=
  { st with media := st.media ++ [m] }

/-- Embeds `comment`: `self.__arxiv_comment = text`. -/
def EntryState.comment_set (st : EntryState) (t : String) : EntryState :=
  { st with comment := some t }

/-- Embeds `primary_category`: `self.__arxiv_primary_category = text`. -/
def EntryState.primary_category_set (st : EntryState)
    (v : List (String × String)) : EntryState :=
  { st with primary_category := some v }

/-- Embeds `journal_ref`: `self.__arxiv_journal_ref = text`. -/
def EntryState.journal_ref_set (st : EntryState) (t : String) : EntryState :=
  { st with journal_ref := some t }

/-- Embeds `doi`: `self.__arxiv_doi = doi_list`. -/
def EntryState.doi_set (st : EntryState) (d : List (String × String)) :
    EntryState :=
  { st with doi := some d }

/-- Python dict assignment `d[k] = v`: replace the value in place when the
key is present, otherwise append the new binding. -/
def assocSet (k : String) (v : List String)
    (l : List (String × List String)) : List (String × List String) :=
  if l.any (fun p => p.1 == k) then
    l.map (fun p => if p.1 == k then (k, v) else p)
  else
    l ++ [(k, v)]

/-- Embeds `affiliation`: `self.__arxiv_affiliations[full_name] = affiliations`. -/
def EntryState.affiliation_set (st : EntryState) (full_name : String)
    (affs : List String) : EntryState :=
  { st with affiliations := assocSet full_name affs st.affiliations }

/-- Python dict lookup `d.get(name, [])` on the affiliations mapping. -/
def assocGet (l : List (String × List String)) (k : String) : List String :=
  match l.find? (fun p => p.1 == k) with
  | some p => p.2
  | none => []

/-! ## Render helpers shared by both entry render paths -/

/-- Python truthiness of an optional string (`if self.__arxiv_comment:`):
false for `None` and for the empty string. -/
def strTruthy : Option String → Bool
  | none => false
  | some s => !(s == "")

/-- Python truthiness of an optional mapping (`if self.__arxiv_doi:`):
false for `None` and for an empty mapping. -/
def listTruthy {α : Type} : Option (List α) → Bool
  | none => false
  | some l => !l.isEmpty

/-- Embeds one media group as built by `ArxivEntryExtension.__add_media`:
a `media:group` containing a `media:title` with the media title as text
and a `media:content` with `url` and `type` attributes. -/
def mediaGroup (m : Media) : Elem :=
  Elem.mk (clark mediaNs "group") [] none
    [Elem.mk (clark mediaNs "title") [] (some m.title) [],
     Elem.mk (clark mediaNs "content") [("url", m.url), ("type", m.type)]
       none []]

/-- Embeds the loop of `ArxivEntryExtension.__add_media`: appends one
group per accumulated media item, in order. -/
def addMedia (ms : List Media) (entry : Elem) : Elem :=
  ms.foldl (fun e m => pushChild e (mediaGroup m)) entry

/-! ## `ArxivEntryExtension.extend_atom` -/

/-- The affiliation elements generated for one `name` child: looks the
name text up in the affiliations mapping (`self.__arxiv_affiliations.get(name, [])`,
with a `None` text matching no key) and builds one `arxiv:affiliation`
element per affiliation string. -/
def affiliationElems (st : EntryState) (txt : Option String) : List Elem :=
  match txt with
  | some n =>
      (assocGet st.affiliations n).map fun aff =>
        Elem.mk (clark atomNs "affiliation") [] (some aff) []
  | none => []

/-- Embeds the per-author inner loop of `extend_atom`: for each `name`
child of the author element, appends the affiliation elements for that
name at the end of the author's children.  (lxml iteration is live, but
the appended elements carry a Clark-notation tag, never `name`, so the
net effect is this batch append.) -/
def addAffiliations (st : EntryState) (author : Elem) : Elem :=
  author.setChildren (author.children ++
    author.children.foldl
      (fun acc c => if c.tag == "name" then acc ++ affiliationElems st c.text else acc)
      [])

/-- The part of `ArxivEntryExtension.extend_atom` before the final
`__add_media` call: sequentially appends the comment, primary-category,
journal-ref and DOI elements when the corresponding field is truthy,
then runs the author-affiliation scan over the entry's children. -/
def atomCore (st : EntryState) (entry : Elem) : Elem :=
  let e1 := if strTruthy st.comment then
      pushChild entry (Elem.mk (clark atomNs "comment") [] st.comment [])
    else entry
  let e2 := if listTruthy st.primary_category then
      pushChild e1 (Elem.mk (clark atomNs "primary_category")
        (st.primary_category.getD []) none [])
    else e1
  let e3 := if strTruthy st.journal_ref then
      pushChild e2 (Elem.mk (clark atomNs "journal_ref") [] st.journal_ref [])
    else e2
  let e4 := if listTruthy st.doi then
      (st.doi.getD []).foldl
        (fun e p => pushChild e (Elem.mk (clark atomNs "doi") [] (some p.1) []))
        e3
    else e3
  e4.setChildren (e4.children.map fun c =>
    if c.tag == "author" then addAffiliations st c else c)

/-- Embeds `ArxivEntryExtension.extend_atom`: the conditional element
appends and the affiliation scan of `atomCore`, then `__add_media`. -/
def ArxivEntryExtension.extend_atom (st : EntryState) (entry : Elem) : Elem :=
  addMedia st.media (atomCore st entry)

/-! ## `ArxivEntryExtension.extend_rss` -/

/-- Replaces spaces by `+`, as in `author.initials.replace(' ', '+')`. -/
def plusForSpaces (s : String) : String :=
  String.mk (s.data.map fun c => if c = ' ' then '+' else c)

/-- One author anchor of the RSS description:
`<a href="http://{base_server}/search/?query={name}&searchtype=author">{full_name}</a>`
with `name = f"{last_name},+{initials.replace(' ', '+')}"`. -/
def authorAnchor (base_server : String) (a : Author) : String :=
  "<a href=\"http://" ++ base_server ++ "/search/?query=" ++ a.last_name ++
    ",+" ++ plusForSpaces a.initials ++ "&searchtype=author\">" ++
    a.full_name ++ "</a>"

/-- Embeds the first-iteration flag loop of `extend_rss` that joins the
author anchors with `", "` separators. -/
def authorsJoin (base_server : String) (authors : List Author) : String :=
  (authors.foldl
    (fun acc a =>
      (acc.1 ++ (if acc.2 then "" else ", ") ++ authorAnchor base_server a,
        false))
    (("", true) : String × Bool)).1

/-- Python rendering of an optional string inside an f-string: `None`
renders as the text `"None"`. -/
def pyStr : Option String → String
  | some s => s
  | none => "None"

/-- The rewritten description text built by `extend_rss` from the
accumulated authors and the original description text. -/
def rssDescription (st : EntryState) (base_server : String)
    (orig : Option String) : String :=
  "<p>Authors: " ++ authorsJoin base_server st.authors ++ "</p><p>" ++
    pyStr orig ++ "</p>"

/-- The part of `ArxivEntryExtension.extend_rss` before the final
`__add_media` call: rewrites the text of every `description` child to
the authors paragraph followed by the original text.  `base_server`
stands for `current_app.config["BASE_SERVER"]`. -/
def rssCore (st : EntryState) (base_server : String) (entry : Elem) : Elem :=
  entry.setChildren (entry.children.map fun c =>
    if c.tag == "description" then
      c.setText (some (rssDescription st base_server c.text))
    else c)

/-- Embeds `ArxivEntryExtension.extend_rss`: the description rewrite of
`rssCore`, then `__add_media`. -/
def ArxivEntryExtension.extend_rss (st : EntryState) (base_server : String)
    (entry : Elem) : Elem :=
  addMedia st.media (rssCore st base_server entry)

/-- Embeds `ArxivAtomExtension.extend_ns`: the entry-level Atom-only
namespace map. -/
def ArxivAtomExtension.extend_ns : List (String × String) :=
  [("arxiv", "http://arxiv.org/schemas/atom")]

/-- Comma-separated join, the specification-side reference form for the
first-flag loop of `extend_rss`. -/
def sepJoin (sep : String) : List String → String
  | [] => ""
  | x :: xs => xs.foldl (fun acc y => acc ++ sep ++ y) x

/-! ## Request validation (spec-modelled: `feed/fetch_data.py` is not
under `src/`; only its tests and the specification describe it) -/

/-- Splits a character list at every occurrence of `sep`; the analogue of
Python `str.split(sep)` (a trailing separator yields an empty last part). -/
def splitChar (sep : Char) : List Char → List (List Char)
  | [] => [[]]
  | c :: cs =>
    let rest := splitChar sep cs
    if c = sep then [] :: rest
    else
      match rest with
      | [] => [[c]]
      | r :: rs => (c :: r) :: rs

/-- String form of `splitChar`. -/
def splitStr (sep : Char) (s : String) : List String :=
  (splitChar sep s.data).map String.mk

/-- True when the string is empty or consists of whitespace only. -/
def isBlank (s : String) : Bool :=
  s.data.all fun c => c.isWhitespace

/-- Character-wise lowercasing used for case-insensitive taxonomy lookup. -/
def lowerStr (s : String) : String :=
  String.mk (s.data.map Char.toLower)

/-- Modelled from the spec: the external two-level taxonomy ("a mapping
from archive → set of valid subject-class codes", static read-only data,
not under `src/`), restricted to the archives and subject classes the
specification and the tests exercise.  Canonical casing is the casing
stored here. -/
def taxonomy : List (String × List String) :=
  [("cs", ["AI", "CG", "CV", "LG"]),
   ("math", ["CO", "NT"]),
   ("hep-lat", []),
   ("physics", ["acc-ph", "optics"])]

/-- Case-insensitive archive lookup in the taxonomy. -/
def findArchive (a : String) : Option (String × List String) :=
  taxonomy.find? fun p => lowerStr p.1 == lowerStr a

/-- The classified form of one valid specifier token: a bare archive or a
full dotted category. -/
inductive TokenKind where
  | archive (a : String)
  | category (c : String)
deriving DecidableEq, Repr

/-- Modelled from the spec: per-token validation of `validate_request`
(`feed/fetch_data.py`, not under `src/`), following the rule order of
the specification: a blank token fails with "Invalid archive
specification"; a token splits on `.`; more than two parts, or a blank
subject part, is a structure error; an unknown archive part (including
the blank archive of a leading `.`) is a bad-archive error; a subject
class not valid under the given archive is a bad-subject-class error;
otherwise the token contributes the canonical-cased archive or full
dotted category. -/
def validateToken (tok : String) : Except String TokenKind :=
  if isBlank tok then Except.error "Invalid archive specification"
  else
    match splitStr '.' tok with
    | [a] =>
      match findArchive a with
      | some p => Except.ok (TokenKind.archive p.1)
      | none => Except.error ("Bad archive \x27" ++ a ++ "\x27.")
    | [a, s] =>
      if s = "" then Except.error "Bad archive/subject class structure"
      else
        match findArchive a with
        | none => Except.error ("Bad archive \x27" ++ a ++ "\x27.")
        | some p =>
          match p.2.find? (fun c => lowerStr c == lowerStr s) with
          | some c => Except.ok (TokenKind.category (p.1 ++ "." ++ c))
          | none => Except.error ("Bad subject class \x27" ++ s ++ "\x27.")
    | _ => Except.error "Bad archive/subject class structure"

/-- Modelled from the spec: the token loop of `validate_request`, which
partitions the validated tokens into archive and category results in
input order, stopping at the first invalid token. -/
def validateGo : List String → List String → List String →
    Except String (List String × List String)
  | [], archs, cats => Except.ok (archs, cats)
  | t :: ts, archs, cats =>
    match validateToken t with
    | Except.error e => Except.error e
    | Except.ok (TokenKind.archive a) => validateGo ts (archs ++ [a]) cats
    | Except.ok (TokenKind.category c) => validateGo ts archs (cats ++ [c])

/-- Modelled from the spec: `validate_request` of `feed/fetch_data.py`
(not under `src/`): splits the specifier on `+` and validates each token
in order. -/
def validate_request (s : String) :
    Except String (List String × List String) :=
  validateGo (splitStr '+' s) [] []

/-- Specification-side classifier: the archive contributed by one token,
if any. -/
def tokenArchive (t : String) : Option String :=
  match validateToken t with
  | Except.ok (TokenKind.archive a) => some a
  | _ => none

/-- Specification-side classifier: the category contributed by one
token, if any. -/
def tokenCategory (t : String) : Option String :=
  match validateToken t with
  | Except.ok (TokenKind.category c) => some c
  | _ => none

/-! ## Helper lemmas -/

@[simp]
lemma Elem.tag_mk (t : String) (a : List (String × String)) (x : Option String)
    (c : List Elem) : (Elem.mk t a x c).tag = t := rfl

@[simp]
lemma Elem.text_mk (t : String) (a : List (String × String)) (x : Option String)
    (c : List Elem) : (Elem.mk t a x c).text = x := rfl

@[simp]
lemma Elem.children_mk (t : String) (a : List (String × String))
    (x : Option String) (c : List Elem) : (Elem.mk t a x c).children = c := rfl

@[simp]
lemma Elem.children_setChildren (e : Elem) (l : List Elem) :
    (e.setChildren l).children = l := by cases e; rfl

@[simp]
lemma Elem.text_setText (e : Elem) (t : Option String) :
    (e.setText t).text = t := by cases e; rfl

@[simp]
lemma pushChild_children (e c : Elem) :
    (pushChild e c).children = e.children ++ [c] := by
  simp [pushChild]

lemma foldl_pushChild_children {α : Type} (g : α → Elem) (l : List α)
    (e : Elem) :
    (l.foldl (fun e x => pushChild e (g x)) e).children =
      e.children ++ l.map g := by
  induction l generalizing e with
  | nil => simp
  | cons x xs ih =>
    rw [List.foldl_cons, ih]
    simp [pushChild]

lemma addMedia_children (ms : List Media) (e : Elem) :
    (addMedia ms e).children = e.children ++ ms.map mediaGroup := by
  unfold addMedia
  exact foldl_pushChild_children mediaGroup ms e

lemma foldl_join (bs : String) (l : List Author) (acc : String) :
    (l.foldl
      (fun acc a =>
        (acc.1 ++ (if acc.2 then "" else ", ") ++ authorAnchor bs a, false))
      ((acc, false) : String × Bool)).1 =
    l.foldl (fun acc a => acc ++ ", " ++ authorAnchor bs a) acc := by
  induction l generalizing acc with
  | nil => rfl
  | cons a t ih =>
    rw [List.foldl_cons, List.foldl_cons]
    exact ih (acc ++ ", " ++ authorAnchor bs a)

lemma authorsJoin_eq (bs : String) (l : List Author) :
    authorsJoin bs l = sepJoin ", " (l.map (authorAnchor bs)) := by
  cases l with
  | nil => rfl
  | cons a t =>
    have h1 : authorsJoin bs (a :: t) =
        (t.foldl
          (fun acc a =>
            (acc.1 ++ (if acc.2 then "" else ", ") ++ authorAnchor bs a,
              false))
          ((authorAnchor bs a, false) : String × Bool)).1 := rfl
    have h2 : sepJoin ", " ((a :: t).map (authorAnchor bs)) =
        (t.map (authorAnchor bs)).foldl (fun acc y => acc ++ ", " ++ y)
          (authorAnchor bs a) := rfl
    rw [h1, h2, foldl_join, List.foldl_map]

lemma foldl_affils (st : EntryState) (l : List Elem) (acc : List Elem) :
    l.foldl
      (fun acc c =>
        if c.tag == "name" then acc ++ affiliationElems st c.text else acc)
      acc =
    acc ++ (l.filter fun n => n.tag == "name").flatMap
      (fun n => affiliationElems st n.text) := by
  induction l generalizing acc with
  | nil => simp
  | cons c t ih =>
    rw [List.foldl_cons, List.filter_cons]
    cases h : (c.tag == "name") with
    | true =>
      simp only [eq_self_iff_true, if_true]
      rw [ih, List.flatMap_cons, List.append_assoc]
    | false =>
      simp only [Bool.false_eq_true, if_false]
      exact ih acc

lemma addAffiliations_eq (st : EntryState) (c : Elem) :
    addAffiliations st c =
      c.setChildren (c.children ++
        (c.children.filter fun n => n.tag == "name").flatMap
          (fun n => affiliationElems st n.text)) := by
  unfold addAffiliations
  rw [foldl_affils]
  simp

lemma comment_tag_ne_author : ¬(clark atomNs "comment" = "author") := by
  decide

lemma primcat_tag_ne_author :
    ¬(clark atomNs "primary_category" = "author") := by decide

lemma journal_tag_ne_author :
    ¬(clark atomNs "journal_ref" = "author") := by decide

lemma doi_tag_ne_author : ¬(clark atomNs "doi" = "author") := by decide

lemma scan_map_eq (st : EntryState) (l : List Elem) :
    l.map (fun c => if c.tag = "author" then addAffiliations st c else c) =
    l.map (fun c =>
      if c.tag = "author" then
        c.setChildren (c.children ++
          (c.children.filter fun n => n.tag == "name").flatMap
            (fun n => affiliationElems st n.text))
      else c) := by
  apply List.map_congr_left
  intro c _
  by_cases hc : c.tag = "author" <;> simp [hc, addAffiliations_eq]

lemma doi_scan_map (st : EntryState) (l : List (String × String)) :
    l.map ((fun c => if c.tag = "author" then addAffiliations st c else c) ∘
      fun x => Elem.mk (clark atomNs "doi") [] (some x.1) []) =
    l.map (fun x => Elem.mk (clark atomNs "doi") [] (some x.1) []) := by
  apply List.map_congr_left
  intro x _
  simp [Function.comp, doi_tag_ne_author]

lemma validateGo_ok (ts : List String) (archs cats acc1 acc2 : List String)
    (h : validateGo ts archs cats = Except.ok (acc1, acc2)) :
    acc1 = archs ++ ts.filterMap tokenArchive ∧
    acc2 = cats ++ ts.filterMap tokenCategory := by
  induction ts generalizing archs cats with
  | nil =>
    simp [validateGo] at h
    simp [List.filterMap, h.1.symm, h.2.symm]
  | cons t ts ih =>
    rcases hv : validateToken t with e | k
    · simp [validateGo, hv] at h
    · cases k with
      | archive a =>
        simp only [validateGo, hv] at h
        obtain ⟨h1, h2⟩ := ih (archs ++ [a]) cats h
        constructor
        · rw [h1]
          simp [List.filterMap_cons, tokenArchive, hv]
        · rw [h2]
          simp [List.filterMap_cons, tokenCategory, hv]
      | category c =>
        simp only [validateGo, hv] at h
        obtain ⟨h1, h2⟩ := ih archs (cats ++ [c]) h
        constructor
        · rw [h1]
          simp [List.filterMap_cons, tokenArchive, hv]
        · rw [h2]
          simp [List.filterMap_cons, tokenCategory, hv]

lemma assocSet_assocSet (k : String) (v1 v2 : List String)
    (l : List (String × List String)) :
    assocSet k v2 (assocSet k v1 l) = assocSet k v2 l := by
  unfold assocSet
  by_cases h : l.any (fun p => p.1 == k) = true
  · rw [if_pos h]
    have hany : ((l.map (fun p => if p.1 == k then (k, v1) else p)).any
        (fun p => p.1 == k)) = true := by
      rw [List.any_map, List.any_eq_true]
      rw [List.any_eq_true] at h
      obtain ⟨p, hp, hpk⟩ := h
      refine ⟨p, hp, ?_⟩
      simp only [Function.comp_apply]
      rw [if_pos hpk]
      exact beq_self_eq_true k
    rw [if_pos hany, if_pos h, List.map_map]
    apply List.map_congr_left
    intro p _
    simp only [Function.comp_apply]
    by_cases hp : (p.1 == k) = true
    · rw [if_pos hp]
      rw [if_pos (beq_self_eq_true k), if_pos hp]
    · rw [if_neg hp, if_neg hp]
  · rw [if_neg h]
    have hany : (((l ++ [(k, v1)]).any (fun p => p.1 == k))) = true := by
      rw [List.any_append]
      simp [beq_self_eq_true]
    rw [if_pos hany, if_neg h, List.map_append]
    have hmapl : l.map (fun p => if p.1 == k then (k, v2) else p) = l := by
      have hp : ∀ p ∈ l, (if p.1 == k then (k, v2) else p) = p := by
        intro p hp
        rw [if_neg]
        intro hpk
        exact h (List.any_eq_true.mpr ⟨p, hp, hpk⟩)
      calc l.map (fun p => if p.1 == k then (k, v2) else p)
          = l.map id := List.map_congr_left (by simpa using hp)
        _ = l := List.map_id l
    rw [hmapl]
    simp [beq_self_eq_true]

lemma foldl_author_accumulates (st : EntryState) (as : List Author) :
    (as.foldl EntryState.author st).authors = st.authors ++ as := by
  induction as generalizing st with
  | nil => simp
  | cons a t ih =>
    rw [List.foldl_cons, ih]
    simp [EntryState.author]

lemma foldl_media_accumulates (st : EntryState) (ms : List Media) :
    (ms.foldl EntryState.media_add st).media = st.media ++ ms := by
  induction ms generalizing st with
  | nil => simp
  | cons m t ih =>
    rw [List.foldl_cons, ih]
    simp [EntryState.media_add]

/-! ## Claim theorems -/

/-- C1: every pair returned by `get_announce_papers` satisfies the query
filter: its category is in `categories` or its archive is in `archives`,
its action is not `abs_only`, a `replace` action has version at most 4,
its date lies within the inclusive range, and the joined metadata row is
flagged current and belongs to the same document. -/
theorem get_announce_papers_filters (first_day last_day : Int)
    (archives categories : List String)
    (updates : List ArXivUpdate) (metadata : List ArXivMetadata)
    (u : ArXivUpdate) (m : ArXivMetadata)
    (hmem : (u, m) ∈ get_announce_papers first_day last_day archives
      categories updates metadata) :
    (u.category ∈ categories ∨ u.archive ∈ archives) ∧
      u.action ≠ "abs_only" ∧
      (u.action = "replace" → u.version ≤ 4) ∧
      first_day ≤ u.date ∧ u.date ≤ last_day ∧
      m.is_current = 1 ∧ m.document_id = u.document_id := by
  have h1 : (u, m) ∈ (updates.flatMap fun u =>
      metadata.filterMap fun m =>
        if u.document_id = m.document_id then some (u, m) else none).filter
      (fun p => rowCond first_day last_day archives categories p.1 p.2) :=
    List.mem_of_mem_take hmem
  rw [List.mem_filter] at h1
  obtain ⟨hjoin, hcond⟩ := h1
  obtain ⟨hor, hrep, habs, hd1, hd2, hcur⟩ := of_decide_eq_true hcond
  refine ⟨hor, habs, ?_, hd1, hd2, hcur, ?_⟩
  · intro hr
    rcases hrep with h | h
    · exact absurd hr h
    · exact h.2
  · rw [List.mem_flatMap] at hjoin
    obtain ⟨u', _, hmem2⟩ := hjoin
    rw [List.mem_filterMap] at hmem2
    obtain ⟨m', _, heq⟩ := hmem2
    by_cases hid : u'.document_id = m'.document_id
    · simp [hid] at heq
      obtain ⟨h1, h2⟩ := heq
      subst h1; subst h2
      exact hid.symm
    · simp [hid] at heq

/-- Witness for C1: a concrete one-row table state on which the filter
conclusion of `get_announce_papers_filters` is obtained. -/
theorem get_announce_papers_filters_witness :
    (((⟨1, "cs.CV", "cs", "new", 1, 5⟩, ⟨1, 1⟩) :
        ArXivUpdate × ArXivMetadata) ∈
      get_announce_papers 0 10 [] ["cs.CV"]
        [⟨1, "cs.CV", "cs", "new", 1, 5⟩] [⟨1, 1⟩]) ∧
    (("cs.CV" ∈ ["cs.CV"] ∨ "cs" ∈ ([] : List String)) ∧
      "new" ≠ "abs_only" ∧ ("new" = "replace" → (1 : Int) ≤ 4) ∧
      (0 : Int) ≤ 5 ∧ (5 : Int) ≤ 10 ∧ 1 = 1 ∧ 1 = 1) :=
  ⟨by decide,
    get_announce_papers_filters 0 10 [] ["cs.CV"]
      [⟨1, "cs.CV", "cs", "new", 1, 5⟩] [⟨1, 1⟩]
      ⟨1, "cs.CV", "cs", "new", 1, 5⟩ ⟨1, 1⟩ (by decide)⟩

/-- C2: after `extend_rss`, the text of a `description` child of the
entry becomes `<p>Authors: ` followed by the comma-separated author
anchors (href built from the base server and the `Last,+Initials` name
with spaces in the initials replaced by `+`, label the full name), in
accumulation order, followed by `</p><p>`, the original description
text, and `</p>`. -/
theorem extend_rss_description (st : EntryState) (bs : String) (entry : Elem)
    (i : Nat) (hi : i < entry.children.length)
    (htag : (entry.children.get ⟨i, hi⟩).tag = "description")
    (t : String) (ht : (entry.children.get ⟨i, hi⟩).text = some t) :
    ∃ hj : i < (ArxivEntryExtension.extend_rss st bs entry).children.length,
      ((ArxivEntryExtension.extend_rss st bs entry).children.get
          ⟨i, hj⟩).text =
        some ("<p>Authors: " ++
          sepJoin ", " (st.authors.map (authorAnchor bs)) ++
          "</p><p>" ++ t ++ "</p>") := by
  have hch : (ArxivEntryExtension.extend_rss st bs entry).children =
      entry.children.map (fun c =>
        if c.tag == "description" then
          c.setText (some (rssDescription st bs c.text))
        else c) ++ st.media.map mediaGroup := by
    unfold ArxivEntryExtension.extend_rss rssCore
    rw [addMedia_children]
    simp
  have hmap : i < (entry.children.map (fun c =>
      if c.tag == "description" then
        c.setText (some (rssDescription st bs c.text))
      else c)).length := by
    simpa using hi
  have hlen : i <
      (ArxivEntryExtension.extend_rss st bs entry).children.length := by
    rw [hch]
    simp only [List.length_append, List.length_map]
    omega
  refine ⟨hlen, ?_⟩
  have hgot : (ArxivEntryExtension.extend_rss st bs entry).children.get
      ⟨i, hlen⟩ =
      (entry.children.get ⟨i, hi⟩).setText
        (some (rssDescription st bs (entry.children.get ⟨i, hi⟩).text)) := by
    simp only [List.get_eq_getElem]
    have hcast : (ArxivEntryExtension.extend_rss st bs entry).children =
        (entry.children.map (fun c =>
          if c.tag == "description" then
            c.setText (some (rssDescription st bs c.text))
          else c) ++ st.media.map mediaGroup) := hch
    rw [List.getElem_of_eq hcast, List.getElem_append_left hmap,
      List.getElem_map]
    simp only [List.get_eq_getElem] at htag
    rw [if_pos (beq_iff_eq.mpr htag)]
  rw [hgot, Elem.text_setText, ht]
  have : rssDescription st bs (some t) =
      "<p>Authors: " ++ sepJoin ", " (st.authors.map (authorAnchor bs)) ++
        "</p><p>" ++ t ++ "</p>" := by
    unfold rssDescription pyStr
    rw [authorsJoin_eq]
  rw [this]

/-- Witness for C2: a one-author state and an entry with one
`description` child, on which `extend_rss_description` is instantiated. -/
theorem extend_rss_description_witness :
    ∃ hj : 0 < (ArxivEntryExtension.extend_rss
        ⟨[⟨"Last", "First Last", "F M", []⟩], [], none, none, none, none,
          none, []⟩
        "example.org"
        (Elem.mk "item" [] none
          [Elem.mk "description" [] (some "orig") []])).children.length,
      ((ArxivEntryExtension.extend_rss
          ⟨[⟨"Last", "First Last", "F M", []⟩], [], none, none, none, none,
            none, []⟩
          "example.org"
          (Elem.mk "item" [] none
            [Elem.mk "description" [] (some "orig") []])).children.get
          ⟨0, hj⟩).text =
        some ("<p>Authors: " ++
          sepJoin ", " (([⟨"Last", "First Last", "F M", []⟩] :
            List Author).map (authorAnchor "example.org")) ++
          "</p><p>" ++ "orig" ++ "</p>") :=
  extend_rss_description
    ⟨[⟨"Last", "First Last", "F M", []⟩], [], none, none, none, none,
      none, []⟩
    "example.org"
    (Elem.mk "item" [] none [Elem.mk "description" [] (some "orig") []])
    0 (by decide) rfl "orig" rfl

/-- C3: `extend_atom` extends the entry's children by, in order: one
comment element iff the comment is truthy, one primary-category element
carrying the value as attributes (not text) iff present, one journal-ref
element iff truthy, one DOI element per entry of the DOI mapping iff the
mapping is non-empty, and the media groups; and every existing `author`
child gains one affiliation sub-element per affiliation string listed
under each of its `name` texts in the affiliations mapping.  Absent
fields contribute the empty list. -/
theorem extend_atom_appends (st : EntryState) (entry : Elem) :
    (ArxivEntryExtension.extend_atom st entry).children =
      entry.children.map (fun c =>
        if c.tag == "author" then
          c.setChildren (c.children ++
            (c.children.filter fun n => n.tag == "name").flatMap
              (fun n => affiliationElems st n.text))
        else c) ++
      ((if strTruthy st.comment then
          [Elem.mk (clark atomNs "comment") [] st.comment []] else []) ++
       (if listTruthy st.primary_category then
          [Elem.mk (clark atomNs "primary_category")
            (st.primary_category.getD []) none []] else []) ++
       (if strTruthy st.journal_ref then
          [Elem.mk (clark atomNs "journal_ref") [] st.journal_ref []]
        else []) ++
       (if listTruthy st.doi then
          (st.doi.getD []).map (fun p =>
            Elem.mk (clark atomNs "doi") [] (some p.1) []) else []) ++
       st.media.map mediaGroup) := by
  unfold ArxivEntryExtension.extend_atom atomCore
  rw [addMedia_children]
  by_cases h1 : strTruthy st.comment <;>
  by_cases h2 : listTruthy st.primary_category <;>
  by_cases h3 : strTruthy st.journal_ref <;>
  by_cases h4 : listTruthy st.doi <;>
    simp [h1, h2, h3, h4, foldl_pushChild_children,
      comment_tag_ne_author, primcat_tag_ne_author, journal_tag_ne_author,
      doi_tag_ne_author, scan_map_eq, doi_scan_map,
      List.map_append, List.append_assoc]

/-- C4: `validate_request` partitions the specifier's tokens into
archives and categories in input token order, with a bare archive token
contributing the canonical-cased archive and a dotted token contributing
the canonical-cased full dotted category; in particular the three
concrete results the tests fix. -/
theorem validate_request_partitions :
    validate_request "cs.CV+math+hep-lat+cs.CG" =
        Except.ok (["math", "hep-lat"], ["cs.CV", "cs.CG"]) ∧
    validate_request "cs.ai" = Except.ok ([], ["cs.AI"]) ∧
    validate_request "CS.AI" = Except.ok ([], ["cs.AI"]) ∧
    ∀ (s : String) (archs cats : List String),
      validate_request s = Except.ok (archs, cats) →
      archs = (splitStr '+' s).filterMap tokenArchive ∧
      cats = (splitStr '+' s).filterMap tokenCategory := by
  refine ⟨rfl, rfl, rfl, ?_⟩
  intro s archs cats h
  have := validateGo_ok (splitStr '+' s) [] [] archs cats h
  simpa using this

/-- Witness for C4: the token-order characterization instantiated at a
concrete mixed specifier. -/
theorem validate_request_partitions_witness :
    (validate_request "math+cs.ai" = Except.ok (["math"], ["cs.AI"])) ∧
    ["math"] = (splitStr '+' "math+cs.ai").filterMap tokenArchive ∧
    ["cs.AI"] = (splitStr '+' "math+cs.ai").filterMap tokenCategory :=
  ⟨rfl, validate_request_partitions.2.2.2 "math+cs.ai" ["math"] ["cs.AI"] rfl⟩

/-- C5: a whitespace-only specifier, a specifier with a trailing `+`
(empty final token), and the empty specifier are all rejected with the
error `Invalid archive specification`; no result pair is produced. -/
theorem validate_request_blank_rejected :
    validate_request "   " = Except.error "Invalid archive specification" ∧
    validate_request "cs.ai+" =
      Except.error "Invalid archive specification" ∧
    validate_request "" = Except.error "Invalid archive specification" :=
  ⟨rfl, rfl, rfl⟩

/-- C6: `extend_atom` and `extend_rss` both append, after their
format-specific work, exactly the same media-group sequence: one group
per accumulated media item in order, each holding a title element with
the media title as text and a content element whose `url` and `type`
attributes come from `Media.url` and `Media.type`. -/
theorem renders_share_media_groups (st : EntryState) (bs : String)
    (entry : Elem) :
    (ArxivEntryExtension.extend_atom st entry).children =
      (atomCore st entry).children ++ st.media.map (fun m =>
        Elem.mk (clark mediaNs "group") [] none
          [Elem.mk (clark mediaNs "title") [] (some m.title) [],
           Elem.mk (clark mediaNs "content")
             [("url", m.url), ("type", m.type)] none []]) ∧
    (ArxivEntryExtension.extend_rss st bs entry).children =
      (rssCore st bs entry).children ++ st.media.map (fun m =>
        Elem.mk (clark mediaNs "group") [] none
          [Elem.mk (clark mediaNs "title") [] (some m.title) [],
           Elem.mk (clark mediaNs "content")
             [("url", m.url), ("type", m.type)] none []]) :=
  ⟨addMedia_children st.media (atomCore st entry),
   addMedia_children st.media (rssCore st bs entry)⟩

/-- C7: the sequence returned by `get_announce_papers` never has more
than 15 row pairs, whatever the tables contain. -/
theorem get_announce_papers_capped (first_day last_day : Int)
    (archives categories : List String)
    (updates : List ArXivUpdate) (metadata : List ArXivMetadata) :
    (get_announce_papers first_day last_day archives categories updates
      metadata).length ≤ 15 := by
  unfold get_announce_papers
  simp

/-- C8: `Media.type` is `application/<format>` when the format is PDF or
PS, `text/html` for every other format, and depends on nothing but the
format field. -/
theorem media_type_mime :
    (∀ m : Media, m.format = Format.pdf ∨ m.format = Format.ps →
      m.type = "application/" ++ formatStr m.format) ∧
    (∀ m : Media, ¬(m.format = Format.pdf ∨ m.format = Format.ps) →
      m.type = "text/html") ∧
    (∀ m1 m2 : Media, m1.format = m2.format → m1.type = m2.type) := by
  refine ⟨?_, ?_, ?_⟩
  · intro m h
    simp [Media.type, h]
  · intro m h
    simp [Media.type, h]
  · intro m1 m2 h
    simp [Media.type, h]

/-- Witness for C8: the MIME derivation obtained at a PDF medium, an
HTML medium, and two media sharing a format. -/
theorem media_type_mime_witness :
    ((Format.pdf = Format.pdf ∨ Format.pdf = Format.ps) ∧
      Media.type ⟨"a title", "a url", Format.pdf⟩ =
        "application/" ++ formatStr Format.pdf) ∧
    (¬(Format.html = Format.pdf ∨ Format.html = Format.ps) ∧
      Media.type ⟨"a title", "a url", Format.html⟩ = "text/html") ∧
    Media.type ⟨"a title", "a url", Format.ps⟩ =
      Media.type ⟨"b title", "b url", Format.ps⟩ :=
  ⟨⟨Or.inl rfl,
    media_type_mime.1 ⟨"a title", "a url", Format.pdf⟩ (Or.inl rfl)⟩,
   ⟨by decide,
    media_type_mime.2.1 ⟨"a title", "a url", Format.html⟩ (by decide)⟩,
   media_type_mime.2.2 ⟨"a title", "a url", Format.ps⟩
     ⟨"b title", "b url", Format.ps⟩ rfl⟩

/-- C9: the feed-level `ArxivExtension` render hooks return the feed
root unchanged for both Atom and RSS, and its namespace map declares
exactly the `arxiv`, `content`, `taxo`, `syn`, `admin` and `media`
namespaces. -/
theorem feed_extension_identity :
    (∀ f : Elem, ArxivExtension.extend_atom f = f) ∧
    (∀ f : Elem, ArxivExtension.extend_rss f = f) ∧
    ArxivExtension.extend_ns =
      [("arxiv", "http://arxiv.org/schemas/atom"),
       ("content", "http://purl.org/rss/1.0/modules/content/"),
       ("taxo", "http://purl.org/rss/1.0/modules/taxonomy/"),
       ("syn", "http://purl.org/rss/1.0/modules/syndication/"),
       ("admin", "http://webns.net/mvcb/"),
       ("media", "http://search.yahoo.com/mrss")] :=
  ⟨fun _ => rfl, fun _ => rfl, rfl⟩

/-- C10: the scalar setters of `ArxivEntryExtension` (comment,
primary-category, journal-ref, DOI, and per-name affiliation) are
last-write-wins, the author and media setters accumulate their
arguments in call order, and every setter leaves every other field of
the state untouched. -/
theorem entry_setters_algebra :
    (∀ (st : EntryState) (t1 t2 : String),
      (st.comment_set t1).comment_set t2 = st.comment_set t2) ∧
    (∀ (st : EntryState) (v1 v2 : List (String × String)),
      (st.primary_category_set v1).primary_category_set v2 =
        st.primary_category_set v2) ∧
    (∀ (st : EntryState) (t1 t2 : String),
      (st.journal_ref_set t1).journal_ref_set t2 = st.journal_ref_set t2) ∧
    (∀ (st : EntryState) (d1 d2 : List (String × String)),
      (st.doi_set d1).doi_set d2 = st.doi_set d2) ∧
    (∀ (st : EntryState) (n : String) (l1 l2 : List String),
      (st.affiliation_set n l1).affiliation_set n l2 =
        st.affiliation_set n l2) ∧
    (∀ (st : EntryState) (as : List Author),
      (as.foldl EntryState.author st).authors = st.authors ++ as) ∧
    (∀ (st : EntryState) (ms : List Media),
      (ms.foldl EntryState.media_add st).media = st.media ++ ms) ∧
    (∀ (st : EntryState) (a : Author),
      (st.author a).authors = st.authors ++ [a] ∧
      (st.author a).media = st.media ∧
      (st.author a).comment = st.comment ∧
      (st.author a).primary_category = st.primary_category ∧
      (st.author a).doi = st.doi ∧
      (st.author a).journal_ref = st.journal_ref ∧
      (st.author a).affiliations = st.affiliations) ∧
    (∀ (st : EntryState) (m : Media),
      (st.media_add m).media = st.media ++ [m] ∧
      (st.media_add m).authors = st.authors ∧
      (st.media_add m).comment = st.comment ∧
      (st.media_add m).primary_category = st.primary_category ∧
      (st.media_add m).doi = st.doi ∧
      (st.media_add m).journal_ref = st.journal_ref ∧
      (st.media_add m).affiliations = st.affiliations) ∧
    (∀ (st : EntryState) (t : String),
      (st.comment_set t).comment = some t ∧
      (st.comment_set t).authors = st.authors ∧
      (st.comment_set t).media = st.media ∧
      (st.comment_set t).primary_category = st.primary_category ∧
      (st.comment_set t).doi = st.doi ∧
      (st.comment_set t).journal_ref = st.journal_ref ∧
      (st.comment_set t).affiliations = st.affiliations) ∧
    (∀ (st : EntryState) (v : List (String × String)),
      (st.primary_category_set v).primary_category = some v ∧
      (st.primary_category_set v).authors = st.authors ∧
      (st.primary_category_set v).media = st.media ∧
      (st.primary_category_set v).comment = st.comment ∧
      (st.primary_category_set v).doi = st.doi ∧
      (st.primary_category_set v).journal_ref = st.journal_ref ∧
      (st.primary_category_set v).affiliations = st.affiliations) ∧
    (∀ (st : EntryState) (t : String),
      (st.journal_ref_set t).journal_ref = some t ∧
      (st.journal_ref_set t).authors = st.authors ∧
      (st.journal_ref_set t).media = st.media ∧
      (st.journal_ref_set t).comment = st.comment ∧
      (st.journal_ref_set t).primary_category = st.primary_category ∧
      (st.journal_ref_set t).doi = st.doi ∧
      (st.journal_ref_set t).affiliations = st.affiliations) ∧
    (∀ (st : EntryState) (d : List (String × String)),
      (st.doi_set d).doi = some d ∧
      (st.doi_set d).authors = st.authors ∧
      (st.doi_set d).media = st.media ∧
      (st.doi_set d).comment = st.comment ∧
      (st.doi_set d).primary_category = st.primary_category ∧
      (st.doi_set d).journal_ref = st.journal_ref ∧
      (st.doi_set d).affiliations = st.affiliations) ∧
    (∀ (st : EntryState) (n : String) (affs : List String),
      (st.affiliation_set n affs).affiliations =
        assocSet n affs st.affiliations ∧
      (st.affiliation_set n affs).authors = st.authors ∧
      (st.affiliation_set n affs).media = st.media ∧
      (st.affiliation_set n affs).comment = st.comment ∧
      (st.affiliation_set n affs).primary_category = st.primary_category ∧
      (st.affiliation_set n affs).doi = st.doi ∧
      (st.affiliation_set n affs).journal_ref = st.journal_ref) := by
  refine ⟨fun st t1 t2 => rfl, fun st v1 v2 => rfl, fun st t1 t2 => rfl,
    fun st d1 d2 => rfl, ?_, foldl_author_accumulates,
    foldl_media_accumulates,
    fun st a => ⟨rfl, rfl, rfl, rfl, rfl, rfl, rfl⟩,
    fun st m => ⟨rfl, rfl, rfl, rfl, rfl, rfl, rfl⟩,
    fun st t => ⟨rfl, rfl, rfl, rfl, rfl, rfl, rfl⟩,
    fun st v => ⟨rfl, rfl, rfl, rfl, rfl, rfl, rfl⟩,
    fun st t => ⟨rfl, rfl, rfl, rfl, rfl, rfl, rfl⟩,
    fun st d => ⟨rfl, rfl, rfl, rfl, rfl, rfl, rfl⟩,
    fun st n affs => ⟨rfl, rfl, rfl, rfl, rfl, rfl, rfl⟩⟩
  intro st n l1 l2
  unfold EntryState.affiliation_set
  simp [assocSet_assocSet]
